import Mathlib

/-!
Verification of the idempotent reconciliation engine of the pm-intake-api
repository: value coercion and placeholder normalization (placeholder
utilities module), domain normalization and the company get-or-create
resolver (gmail inbound routes), the inbox-email duplicate guard, the
promote-then-delete inbox workflow (apps-script promotion module), and the
rate-limit retry wrapper (airtable client).

JavaScript strings are modelled as `List Char`; JSON-serializable values as
the inductive `Json`; the external record store as explicit state threaded
through each operation.  HTTP/fetch failures are modelled as environment
outcomes passed to the operation.
-/

namespace PMIntake

/-- The character list of a string literal (JS strings as `List Char`). -/
def chars (s : String) : List Char := s.data

/-- JS `String.prototype.trim`: drop leading and trailing whitespace. -/
def trimChars (s : List Char) : List Char :=
  ((s.dropWhile Char.isWhitespace).reverse.dropWhile Char.isWhitespace).reverse

/-- Whether `p` is a leading segment of `s`. -/
def hasPre (p s : List Char) : Bool := decide (s.take p.length = p)

/-- Remove one leading occurrence of `p` from `s`, if present
(models a `^...` anchored regex replacement). -/
def dropPre (p s : List Char) : List Char :=
  if hasPre p s then s.drop p.length else s

/-- Whether `p` is a trailing segment of `s`. -/
def hasSuf (p s : List Char) : Bool := hasPre p.reverse s.reverse

/-- Remove one trailing occurrence of `p` from `s`, if present
(models a `...$` anchored regex replacement). -/
def dropSuf (p s : List Char) : List Char :=
  (dropPre p.reverse s.reverse).reverse

/-- JS `String.prototype.toUpperCase` (ASCII range, per character). -/
def upChars (s : List Char) : List Char := s.map Char.toUpper

/-- JS `String.prototype.toLowerCase` (ASCII range, per character). -/
def downChars (s : List Char) : List Char := s.map Char.toLower

/-- JSON-serializable values: the input space of `coerceToString`.
Objects are association lists of members (JS runtime objects have unique
keys; property access is modelled by first match). -/
inductive Json where
  | null : Json
  | str (s : List Char) : Json
  | num (n : Int) : Json
  | bool (b : Bool) : Json
  | arr (elems : List Json) : Json
  | obj (members : List (List Char × Json)) : Json

/-- Decimal digit character for `d < 10`. -/
def digitChar (d : Nat) : Char := Char.ofNat (48 + d)

/-- Decimal digits of a natural number, most significant first. -/
def natChars (n : Nat) : List Char :=
  if _h : n < 10 then [digitChar n]
  else natChars (n / 10) ++ [digitChar (n % 10)]
termination_by n
decreasing_by exact Nat.div_lt_self (by omega) (by omega)

/-- JS `String(number)` for integral numbers. -/
def intChars (i : Int) : List Char :=
  if i < 0 then '-' :: natChars i.natAbs else natChars i.natAbs

/-- Escape of one character inside a JSON string literal. -/
def escChar (c : Char) : List Char :=
  if c = '"' then ['\\', '"']
  else if c = '\\' then ['\\', '\\']
  else [c]

/-- Escape of a JSON string body. -/
def escChars (s : List Char) : List Char :=
  s.foldr (fun c acc => escChar c ++ acc) []

mutual

/-- `JSON.stringify` on the modelled value space (compact form). -/
def jsonSerialize : Json → List Char
  | .null => chars "null"
  | .bool true => chars "true"
  | .bool false => chars "false"
  | .num n => intChars n
  | .str s => '"' :: (escChars s ++ ['"'])
  | .arr es => '[' :: (jsonSerializeList es ++ [']'])
  | .obj ms => '\x7b' :: (jsonSerializeMembers ms ++ ['\x7d'])

/-- Comma-separated serialization of array elements. -/
def jsonSerializeList : List Json → List Char
  | [] => []
  | [x] => jsonSerialize x
  | x :: y :: xs => jsonSerialize x ++ ',' :: jsonSerializeList (y :: xs)

/-- Comma-separated serialization of object members. -/
def jsonSerializeMembers : List (List Char × Json) → List Char
  | [] => []
  | [kv] => ('"' :: (escChars kv.1 ++ ['"', ':'])) ++ jsonSerialize kv.2
  | kv :: kw :: ms =>
    (('"' :: (escChars kv.1 ++ ['"', ':'])) ++ jsonSerialize kv.2)
      ++ ',' :: jsonSerializeMembers (kw :: ms)

end

/-- JS property access `obj[k]` on a modelled object. -/
def jsLookup (members : List (List Char × Json)) (k : List Char) : Option Json :=
  (members.find? (fun kv => kv.1 = k)).map (·.2)

/-- Models the JS idiom `s.trim() || null`: trimmed string, with the empty
result collapsed to null. -/
def trimOrNull (s : List Char) : Option (List Char) :=
  let t := trimChars s
  if t = [] then none else some t

/-- The shared name-then-value-then-serialize branch of `coerceToString`:
`whole` is the object (or array) that gets serialized on fallback. -/
def coerceObj (members : List (List Char × Json)) (whole : Json) : Option (List Char) :=
  match jsLookup members (chars "name") with
  | some (.str s) => trimOrNull s
  | _ =>
    match jsLookup members (chars "value") with
    | some (.str s) => trimOrNull s
    | _ => some (jsonSerialize whole)

/-- `coerceToString` from the placeholder utilities module: coerces an
arbitrary JSON shape to a canonical string or null. -/
def coerceToString : Json → Option (List Char)
  | .null => none
  | .str s => trimOrNull s
  | .arr [] => none
  | .arr (first :: _) =>
    match first with
    | .obj ms => coerceObj ms first
    | .arr _ => coerceObj [] first
    | .str s => trimOrNull s
    | .num n => some (intChars n)
    | .null => none
    | .bool _ => none
  | .obj ms => coerceObj ms (.obj ms)
  | .num n => some (intChars n)
  | .bool _ => none

/-- `normalizeKey` from the placeholder utilities module: trim, strip a
leading `\x7b\x7b` and a trailing `\x7d\x7d` (each if present), trim
again, uppercase. -/
def normalizeKey (k : List Char) : List Char :=
  upChars (trimChars (dropSuf (chars "\x7d\x7d") (dropPre (chars "\x7b\x7b") (trimChars k))))

/-- The request-body shapes consumed by `normalizeMerge`: each optional
field is a JS object modelled as an association list (absent = the JS
field is undefined, hence falsy). -/
structure RawBody where
  placeholders : Option (List (List Char × Json)) := none
  placeholdersUpper : Option (List (List Char × Json)) := none
  mergeFields : Option (List (List Char × Json)) := none
  mergefieldsLower : Option (List (List Char × Json)) := none
  fields : Option (List (List Char × Json)) := none
  replacements : Option (List (List Char × Json)) := none
  structuredInputs : Option (List (List Char × Json)) := none
  structuredinputsLower : Option (List (List Char × Json)) := none

/-- JS object assignment `out[k] = v`: overwrite in place if the key is
present, otherwise append. -/
def setKey (m : List (List Char × List Char)) (k v : List Char) :
    List (List Char × List Char) :=
  if m.any (fun p => p.1 = k) then
    m.map (fun p => if p.1 = k then (k, v) else p)
  else m ++ [(k, v)]

/-- Lookup of a key in the merge map under construction. -/
def getKey (m : List (List Char × List Char)) (k : List Char) : Option (List Char) :=
  (m.find? (fun p => p.1 = k)).map (·.2)

/-- Step-1 loop of `normalizeMerge`: every coercible placeholder entry is
written unconditionally. -/
def putPlaceholderEntries (out : List (List Char × List Char))
    (entries : List (List Char × Json)) : List (List Char × List Char) :=
  entries.foldl (fun acc kv =>
    let nk := normalizeKey kv.1
    match coerceToString kv.2 with
    | some s => if nk = [] then acc else setKey acc nk s
    | none => acc) out

/-- Step-2 loop of `normalizeMerge`: a coercible field entry is written
only if its normalized key is not already present. -/
def putMergeEntries (out : List (List Char × List Char))
    (entries : List (List Char × Json)) : List (List Char × List Char) :=
  entries.foldl (fun acc kv =>
    let nk := normalizeKey kv.1
    match coerceToString kv.2 with
    | some s =>
      if nk = [] then acc
      else if (getKey acc nk).isSome then acc
      else setKey acc nk s
    | none => acc) out

/-- The map produced by step 1 of `normalizeMerge` alone (the
`placeholders`/`Placeholders` loop). -/
def phase1 (b : RawBody) : List (List Char × List Char) :=
  match b.placeholders.or b.placeholdersUpper with
  | some entries => putPlaceholderEntries [] entries
  | none => []

/-- `normalizeMerge` of the placeholder utilities module: placeholders
first (authoritative), then the first present of the field-object aliases
fills gaps only. -/
def normalizeMerge (b : RawBody) : List (List Char × List Char) :=
  let out := phase1 b
  match (b.mergeFields.or (b.mergefieldsLower.or (b.fields.or (b.replacements.or
      (b.structuredInputs.or b.structuredinputsLower))))) with
  | some entries => putMergeEntries out entries
  | none => out

/-- The protocol strip of `normalizeDomain`: one leading
`http://`/`https://` occurrence is removed (the `^https?:\/\/` regex). -/
def stripProto (d : List Char) : List Char :=
  if hasPre (chars "https://") d then d.drop 8
  else if hasPre (chars "http://") d then d.drop 7
  else d

/-- `normalizeDomain` shared by the gmail inbound routes and the airtable
client helpers: trim, lowercase, strip one leading `http://`/`https://`,
truncate at the first `/` and first `?`, strip one leading `www.`. -/
def normalizeDomain (input : List Char) : List Char :=
  if input = [] then []
  else
    dropPre (chars "www.")
      (((stripProto (downChars (trimChars input))).takeWhile
          (fun c => c ≠ '/')).takeWhile (fun c => c ≠ '?'))

/-- Which lookup matched in the company resolver: `primary` is the
`normalizedDomain_text` field, `secondary` is the legacy `domain` field. -/
inductive MatchedBy where
  | primary : MatchedBy
  | secondary : MatchedBy
deriving DecidableEq, Repr

/-- A company record in the record store, with both identity fields. -/
structure Company where
  id : Nat
  name : List Char
  domain : List Char
  normalizedDomainText : List Char
deriving DecidableEq, Repr

/-- The companies table: records plus the next store-assigned id. -/
structure CompanyStore where
  companies : List Company
  nextId : Nat
deriving DecidableEq, Repr

/-- The result shape of `getOrCreateCompany`. -/
structure CompanyResult where
  recordId : Nat
  created : Bool
  matchedBy : Option MatchedBy
deriving DecidableEq, Repr

/-- Filtered query on the primary identity field, `maxRecords=1`. -/
def findCompanyByNormalized (st : CompanyStore) (v : List Char) : Option Company :=
  st.companies.find? (fun c => c.normalizedDomainText = v)

/-- Filtered query on the secondary (legacy) identity field, `maxRecords=1`. -/
def findCompanyByDomain (st : CompanyStore) (v : List Char) : Option Company :=
  st.companies.find? (fun c => c.domain = v)

/-- The display name of a created company: the JS expression
`opts.companyName || normalizedDomain` (absent or empty hint falls back
to the normalized domain). -/
def displayNameOf (companyName : Option (List Char)) (nd : List Char) : List Char :=
  match companyName with
  | some n => if n = [] then nd else n
  | none => nd

/-- `getOrCreateCompany` of the gmail inbound company route: normalize the
domain, probe the primary then the secondary identity field, create with
both identity fields set to the normalized value on a total miss.
`companyName` is the display-name hint. Throwing (empty normalized
domain) is `Except.error`. -/
def getOrCreateCompany (st : CompanyStore) (domainInput : List Char)
    (companyName : Option (List Char)) :
    Except (List Char) (CompanyResult × CompanyStore) :=
  let nd := normalizeDomain domainInput
  if nd = [] then
    .error (chars "Cannot create company: no valid domain provided")
  else
    match findCompanyByNormalized st nd with
    | some c => .ok (⟨c.id, false, some .primary⟩, st)
    | none =>
      match findCompanyByDomain st nd with
      | some c => .ok (⟨c.id, false, some .secondary⟩, st)
      | none =>
        let newCompany : Company :=
          ⟨st.nextId, displayNameOf companyName nd, nd, nd⟩
        .ok (⟨st.nextId, true, none⟩, ⟨st.companies ++ [newCompany], st.nextId + 1⟩)

/-- An inbox-item record: trace key (`Gmail Message ID`) and audit-log
text field (`Activity Log`). -/
structure InboxItem where
  id : Nat
  gmailMessageId : List Char
  activityLog : List Char
deriving DecidableEq, Repr

/-- The inbox-items table: records plus the next store-assigned id. -/
structure InboxStore where
  items : List InboxItem
  nextId : Nat
deriving DecidableEq, Repr

/-- `findDuplicateInboxItem` of the inbox-email route: filtered query on
`Gmail Message ID`, `maxRecords=1`. -/
def findDuplicateInboxItem (st : InboxStore) (msgId : List Char) : Option InboxItem :=
  st.items.find? (fun it => it.gmailMessageId = msgId)

/-- The read-modify-write of `appendActivityLog`: concatenate the new
timestamped entry onto the existing log (JS `existingLog ?
existingLog\n+entry : entry`). -/
def appendedLog (existing newEntry : List Char) : List Char :=
  if existing = [] then newEntry else existing ++ '\n' :: newEntry

/-- The PATCH of `appendActivityLog`: replace the audit-log field of the
record with the given id. -/
def updateActivityLog (st : InboxStore) (itemId : Nat) (newLog : List Char) : InboxStore :=
  ⟨st.items.map (fun it =>
    if it.id = itemId then { it with activityLog := newLog } else it), st.nextId⟩

/-- The caller-visible outcome of one ingestion call: `ok=false` models
the catch-all error response of the route handler. -/
structure IngestResult where
  ok : Bool
  wasDuplicate : Bool
  itemId : Option Nat
deriving DecidableEq, Repr

/-- The dedup-then-create slice of the inbox-email POST handler
(`createChildOrSkip` semantics): on a duplicate hit, append to the audit
log and return the existing id; on a fresh trace key, create the item with
an initialized audit log.  `updateFails` is the environment outcome of the
audit-log PATCH: when it fails the thrown error propagates to the route's
catch block, which returns an error response. -/
def ingestInboxEmail (st : InboxStore) (msgId initLog dupEntry : List Char)
    (updateFails : Bool) : IngestResult × InboxStore :=
  match findDuplicateInboxItem st msgId with
  | some it =>
    if updateFails then (⟨false, false, none⟩, st)
    else
      (⟨true, true, some it.id⟩,
        updateActivityLog st it.id (appendedLog it.activityLog dupEntry))
  | none =>
    (⟨true, false, some st.nextId⟩,
      ⟨st.items ++ [⟨st.nextId, msgId, initLog⟩], st.nextId + 1⟩)

/-- The audit log of the record with the given id, if present. -/
def itemLogById (st : InboxStore) (itemId : Nat) : Option (List Char) :=
  (st.items.find? (fun it => it.id = itemId)).map (·.activityLog)

/-- Environment outcome of the source-record GET in the promotion
workflow. -/
inductive GetOutcome where
  | found : GetOutcome
  | notFound : GetOutcome
  | throws : GetOutcome
deriving DecidableEq, Repr

/-- Environment outcome of one child-creation batch: the store-reported
created ids, or a thrown HTTP error. -/
inductive BatchOutcome where
  | ids (createdIds : List Nat) : BatchOutcome
  | throws : BatchOutcome
deriving DecidableEq, Repr

/-- The failure branch taken by `promoteInboxItem` (abstracting the error
message strings). -/
inductive PromoteErr where
  | sourceNotFound : PromoteErr
  | sourceFetchFailed : PromoteErr
  | taskMismatch : PromoteErr
  | taskCreateFailed : PromoteErr
  | decisionMismatch : PromoteErr
  | decisionCreateFailed : PromoteErr
  | nothingToPromote : PromoteErr
  | inboxDeleteFailed : PromoteErr
deriving DecidableEq, Repr

/-- The structured response of `promoteInboxItem`. -/
structure PromoteResult where
  ok : Bool
  createdTasks : List Nat
  createdDecisions : List Nat
  inboxDeleted : Bool
  err : Option PromoteErr
deriving DecidableEq, Repr

/-- The record-store operations the workflow can issue, in order. -/
inductive PromoteOp where
  | fetchSource : PromoteOp
  | createTasks : PromoteOp
  | createDecisions : PromoteOp
  | deleteSource : PromoteOp
deriving DecidableEq, Repr

/-- Environment outcomes for one run of the promotion workflow. -/
structure PromoteEnv where
  getOutcome : GetOutcome
  taskOutcome : BatchOutcome
  decisionOutcome : BatchOutcome
  deleteSucceeds : Bool

/-- Steps 4-5 of `promoteInboxItem`: the zero-children check, then the
final delete; on delete failure the result still reports `ok=true`. -/
def promoteAfterChildren (env : PromoteEnv) (tids dids : List Nat)
    (tr : List PromoteOp) : PromoteResult × List PromoteOp :=
  if tids.length + dids.length = 0 then
    (⟨false, tids, dids, false, some .nothingToPromote⟩, tr)
  else if env.deleteSucceeds then
    (⟨true, tids, dids, true, none⟩, tr ++ [.deleteSource])
  else
    (⟨true, tids, dids, false, some .inboxDeleteFailed⟩, tr ++ [.deleteSource])

/-- Step 3 of `promoteInboxItem`: the decisions batch with its exact-count
check (skipped when no decisions are declared). -/
def promoteAfterTasks (env : PromoteEnv) (tids : List Nat) (numDecisions : Nat)
    (tr : List PromoteOp) : PromoteResult × List PromoteOp :=
  if numDecisions > 0 then
    match env.decisionOutcome with
    | .throws =>
      (⟨false, tids, [], false, some .decisionCreateFailed⟩, tr ++ [.createDecisions])
    | .ids dids =>
      if dids.length ≠ numDecisions then
        (⟨false, tids, [], false, some .decisionMismatch⟩, tr ++ [.createDecisions])
      else promoteAfterChildren env tids dids (tr ++ [.createDecisions])
  else promoteAfterChildren env tids [] tr

/-- `promoteInboxItem` of the apps-script promotion module: validate the
source, create tasks then decisions with exact-count checks, reject empty
promotions, delete the source strictly last.  Returns the structured
result and the trace of store operations issued, in order.
`numTasks`/`numDecisions` are the lengths of the declared child lists. -/
def promoteInboxItem (env : PromoteEnv) (numTasks numDecisions : Nat) :
    PromoteResult × List PromoteOp :=
  match env.getOutcome with
  | .throws => (⟨false, [], [], false, some .sourceFetchFailed⟩, [.fetchSource])
  | .notFound => (⟨false, [], [], false, some .sourceNotFound⟩, [.fetchSource])
  | .found =>
    if numTasks > 0 then
      match env.taskOutcome with
      | .throws =>
        (⟨false, [], [], false, some .taskCreateFailed⟩, [.fetchSource, .createTasks])
      | .ids tids =>
        if tids.length ≠ numTasks then
          (⟨false, [], [], false, some .taskMismatch⟩, [.fetchSource, .createTasks])
        else promoteAfterTasks env tids numDecisions [.fetchSource, .createTasks]
    else promoteAfterTasks env [] numDecisions [.fetchSource]

/-- `MAX_RETRIES` of the airtable client. -/
def maxRetries : Nat := 3

/-- `fetchWithRetry` of the airtable client: `statuses a` is the HTTP
status the fetch of attempt `a` would observe.  Returns the attempt number
whose response is returned to the caller and the list of sleep durations
(milliseconds) performed before retries, in order. -/
def fetchWithRetry (statuses : Nat → Nat) (attempt : Nat) : Nat × List Nat :=
  if h : statuses attempt = 429 ∧ attempt < maxRetries then
    let delay := 2 ^ (attempt - 1) * 1000
    let rest := fetchWithRetry statuses (attempt + 1)
    (rest.1, delay :: rest.2)
  else (attempt, [])
termination_by maxRetries - attempt
decreasing_by simp [maxRetries] at h ⊢; omega

/-! ### Character-level facts about case mapping and whitespace -/

theorem char_eq_iff_toNat {a b : Char} : a = b ↔ a.toNat = b.toNat := by
  constructor
  · intro h; rw [h]
  · intro h
    exact Char.ext (UInt32.ext (by simpa [Char.toNat] using h))

theorem toNat_ofNatAux (n : Nat) (h : n.isValidChar) : (Char.ofNatAux n h).toNat = n := by
  simp [Char.ofNatAux, Char.toNat, UInt32.toNat]

theorem toNat_ofNat_valid (n : Nat) (h : n.isValidChar) : (Char.ofNat n).toNat = n := by
  simp [Char.ofNat, h, toNat_ofNatAux]

theorem toUpper_toNat (c : Char) :
    (Char.toUpper c).toNat =
      if c.toNat ≥ 97 ∧ c.toNat ≤ 122 then c.toNat - 32 else c.toNat := by
  show (if c.toNat ≥ 97 ∧ c.toNat ≤ 122 then Char.ofNat (c.toNat - 32) else c).toNat = _
  by_cases h : c.toNat ≥ 97 ∧ c.toNat ≤ 122
  · rw [if_pos h, if_pos h, toNat_ofNat_valid _ (Or.inl (by omega))]
  · rw [if_neg h, if_neg h]

theorem toLower_toNat (c : Char) :
    (Char.toLower c).toNat =
      if c.toNat ≥ 65 ∧ c.toNat ≤ 90 then c.toNat + 32 else c.toNat := by
  show (if c.toNat ≥ 65 ∧ c.toNat ≤ 90 then Char.ofNat (c.toNat + 32) else c).toNat = _
  by_cases h : c.toNat ≥ 65 ∧ c.toNat ≤ 90
  · rw [if_pos h, if_pos h, toNat_ofNat_valid _ (Or.inl (by omega))]
  · rw [if_neg h, if_neg h]

theorem isWhitespace_iff (c : Char) :
    c.isWhitespace = true ↔
      (c.toNat = 32 ∨ c.toNat = 9 ∨ c.toNat = 13 ∨ c.toNat = 10) := by
  simp only [Char.isWhitespace, Bool.or_eq_true, decide_eq_true_eq]
  constructor
  · rintro (((h | h) | h) | h) <;> subst h <;> decide
  · intro h
    rcases h with h | h | h | h
    · exact Or.inl (Or.inl (Or.inl (char_eq_iff_toNat.mpr (h.trans (by decide)))))
    · exact Or.inl (Or.inl (Or.inr (char_eq_iff_toNat.mpr (h.trans (by decide)))))
    · exact Or.inl (Or.inr (char_eq_iff_toNat.mpr (h.trans (by decide))))
    · exact Or.inr (char_eq_iff_toNat.mpr (h.trans (by decide)))

theorem ws_toUpper (c : Char) : (Char.toUpper c).isWhitespace = c.isWhitespace := by
  by_cases h : (Char.toUpper c).isWhitespace = true
  · have h1 := (isWhitespace_iff _).mp h
    rw [toUpper_toNat] at h1
    rw [h]
    by_cases h2 : c.toNat ≥ 97 ∧ c.toNat ≤ 122
    · rw [if_pos h2] at h1; omega
    · rw [if_neg h2] at h1
      exact ((isWhitespace_iff c).mpr h1).symm
  · rw [Bool.not_eq_true] at h
    rw [h]
    by_cases h2 : c.isWhitespace = true
    · have h1 := (isWhitespace_iff _).mp h2
      have h3 : (Char.toUpper c).toNat = c.toNat := by
        rw [toUpper_toNat, if_neg (by omega)]
      have := (isWhitespace_iff (Char.toUpper c)).mpr (by omega)
      rw [h] at this; cases this
    · rw [Bool.not_eq_true] at h2; rw [h2]

theorem ws_toLower (c : Char) : (Char.toLower c).isWhitespace = c.isWhitespace := by
  by_cases h : (Char.toLower c).isWhitespace = true
  · have h1 := (isWhitespace_iff _).mp h
    rw [toLower_toNat] at h1
    rw [h]
    by_cases h2 : c.toNat ≥ 65 ∧ c.toNat ≤ 90
    · rw [if_pos h2] at h1; omega
    · rw [if_neg h2] at h1
      exact ((isWhitespace_iff c).mpr h1).symm
  · rw [Bool.not_eq_true] at h
    rw [h]
    by_cases h2 : c.isWhitespace = true
    · have h1 := (isWhitespace_iff _).mp h2
      have h3 : (Char.toLower c).toNat = c.toNat := by
        rw [toLower_toNat, if_neg (by omega)]
      have := (isWhitespace_iff (Char.toLower c)).mpr (by omega)
      rw [h] at this; cases this
    · rw [Bool.not_eq_true] at h2; rw [h2]

theorem toUpper_toUpper (c : Char) : (Char.toUpper c).toUpper = Char.toUpper c := by
  apply char_eq_iff_toNat.mpr
  rw [toUpper_toNat, toUpper_toNat c]
  by_cases h : c.toNat ≥ 97 ∧ c.toNat ≤ 122
  · rw [if_pos h, if_neg (by omega)]
  · rw [if_neg h, if_neg h]

theorem toLower_toLower (c : Char) : (Char.toLower c).toLower = Char.toLower c := by
  apply char_eq_iff_toNat.mpr
  rw [toLower_toNat, toLower_toNat c]
  by_cases h : c.toNat ≥ 65 ∧ c.toNat ≤ 90
  · rw [if_pos h, if_neg (by omega)]
  · rw [if_neg h, if_neg h]

/-! ### Facts about `trimChars` -/

theorem dropWhile_head_false {α : Type} {p : α → Bool} :
    ∀ {l : List α} {c : α} {rest : List α}, l.dropWhile p = c :: rest → p c = false := by
  intro l
  induction l with
  | nil => intro c rest h; cases h
  | cons a as ih =>
    intro c rest h
    rw [List.dropWhile_cons] at h
    split at h
    · exact ih h
    · next hpa =>
      cases h
      exact Bool.not_eq_true _ |>.mp hpa

theorem getLast?_dropWhile {α : Type} (p : α → Bool) (l : List α)
    (h : l.dropWhile p ≠ []) : (l.dropWhile p).getLast? = l.getLast? := by
  obtain ⟨t, ht⟩ := List.dropWhile_suffix p (l := l)
  conv_rhs => rw [← ht]
  rw [List.getLast?_append]
  cases hl : (l.dropWhile p).getLast? with
  | none => exact absurd (List.getLast?_isSome.mpr h) (by rw [hl]; simp)
  | some a => exact (Option.or_some).symm

theorem trimChars_head?_not_ws {s : List Char} {c : Char}
    (h : (trimChars s).head? = some c) : c.isWhitespace = false := by
  unfold trimChars at h
  rw [List.head?_reverse] at h
  have hne : (s.dropWhile Char.isWhitespace).reverse.dropWhile Char.isWhitespace ≠ [] := by
    intro hnil
    rw [hnil] at h; cases h
  rw [getLast?_dropWhile _ _ hne, List.getLast?_reverse] at h
  cases hd : s.dropWhile Char.isWhitespace with
  | nil => rw [hd] at h; cases h
  | cons a rest =>
    rw [hd] at h
    simp only [List.head?] at h
    cases h
    exact dropWhile_head_false hd

theorem trimChars_getLast?_not_ws {s : List Char} {c : Char}
    (h : (trimChars s).getLast? = some c) : c.isWhitespace = false := by
  unfold trimChars at h
  rw [List.getLast?_reverse] at h
  cases hd : (s.dropWhile Char.isWhitespace).reverse.dropWhile Char.isWhitespace with
  | nil => rw [hd] at h; cases h
  | cons a rest =>
    rw [hd] at h
    simp only [List.head?] at h
    cases h
    exact dropWhile_head_false hd

theorem dropWhile_eq_self_of_head {α : Type} {p : α → Bool} {l : List α}
    (h : ∀ c, l.head? = some c → p c = false) : l.dropWhile p = l := by
  cases l with
  | nil => rfl
  | cons a as =>
    rw [List.dropWhile_cons, if_neg]
    simp [h a rfl]

theorem trimChars_eq_self_of {s : List Char}
    (hh : ∀ c, s.head? = some c → c.isWhitespace = false)
    (hl : ∀ c, s.getLast? = some c → c.isWhitespace = false) :
    trimChars s = s := by
  unfold trimChars
  rw [dropWhile_eq_self_of_head hh]
  rw [dropWhile_eq_self_of_head (by simpa [List.head?_reverse] using hl)]
  exact List.reverse_reverse s

theorem trimChars_trimChars (s : List Char) : trimChars (trimChars s) = trimChars s :=
  trimChars_eq_self_of (fun _ h => trimChars_head?_not_ws h)
    (fun _ h => trimChars_getLast?_not_ws h)

theorem trimChars_map {f : Char → Char} (hf : ∀ c, (f c).isWhitespace = c.isWhitespace)
    (s : List Char) : trimChars (s.map f) = (trimChars s).map f := by
  unfold trimChars
  have hcomp : (Char.isWhitespace ∘ f) = Char.isWhitespace := by
    funext c; simp [Function.comp, hf]
  rw [List.dropWhile_map, hcomp, ← List.map_reverse, List.dropWhile_map, hcomp,
    ← List.map_reverse]

theorem map_eq_self_of_fixed {α : Type} {f : α → α} {l : List α}
    (h : ∀ c ∈ l, f c = c) : l.map f = l := by
  induction l with
  | nil => rfl
  | cons a as ih => simp_all

theorem head?_mem {α : Type} {l : List α} {a : α} (h : l.head? = some a) : a ∈ l := by
  cases l with
  | nil => cases h
  | cons b bs => simp only [List.head?] at h; cases h; exact List.mem_cons_self _ _

theorem getLast?_mem {α : Type} {l : List α} {a : α} (h : l.getLast? = some a) : a ∈ l := by
  have hne : l ≠ [] := by intro e; subst e; cases h
  rw [List.getLast?_eq_getLast l hne] at h
  cases h
  exact List.getLast_mem hne

/-! ### The serialization fallback produces non-empty trimmed strings -/

theorem digitChar_toNat {d : Nat} (h : d < 10) : (digitChar d).toNat = 48 + d :=
  toNat_ofNat_valid _ (Or.inl (by omega))

theorem mem_natChars (n : Nat) : ∀ c ∈ natChars n, 48 ≤ c.toNat ∧ c.toNat ≤ 57 := by
  induction n using Nat.strong_induction_on with
  | _ n ih =>
    intro c hc
    rw [natChars] at hc
    split at hc
    · next h10 =>
      simp only [List.mem_singleton] at hc
      subst hc
      rw [digitChar_toNat h10]; omega
    · next h10 =>
      rw [List.mem_append] at hc
      rcases hc with hc | hc
      · exact ih (n / 10) (Nat.div_lt_self (by omega) (by omega)) c hc
      · simp only [List.mem_singleton] at hc
        subst hc
        rw [digitChar_toNat (Nat.mod_lt _ (by omega))]; omega

theorem natChars_ne_nil (n : Nat) : natChars n ≠ [] := by
  rw [natChars]
  split <;> simp

theorem not_ws_of_digit {c : Char} (h : 48 ≤ c.toNat ∧ c.toNat ≤ 57) :
    c.isWhitespace = false := by
  by_cases hw : c.isWhitespace = true
  · have := (isWhitespace_iff c).mp hw; omega
  · exact Bool.not_eq_true _ |>.mp hw

theorem trim_natChars (n : Nat) : trimChars (natChars n) = natChars n := by
  apply trimChars_eq_self_of
  · intro c hc
    exact not_ws_of_digit (mem_natChars n c (head?_mem hc))
  · intro c hc
    exact not_ws_of_digit (mem_natChars n c (getLast?_mem hc))

theorem trim_intChars (i : Int) :
    intChars i ≠ [] ∧ trimChars (intChars i) = intChars i := by
  unfold intChars
  split
  · refine ⟨by simp, ?_⟩
    apply trimChars_eq_self_of
    · intro c hc
      simp only [List.head?] at hc
      cases hc; decide
    · intro c hc
      rcases hn : natChars i.natAbs with _ | ⟨d, ds⟩
      · exact absurd hn (natChars_ne_nil _)
      · rw [show ('-' :: natChars i.natAbs).getLast? = (natChars i.natAbs).getLast? by
          rw [hn]; simp [List.getLast?]] at hc
        exact not_ws_of_digit (mem_natChars _ c (getLast?_mem hc))
  · exact ⟨natChars_ne_nil _, trim_natChars _⟩

theorem trim_wrap {a b : Char} (ha : a.isWhitespace = false)
    (hb : b.isWhitespace = false) (mid : List Char) :
    trimChars (a :: (mid ++ [b])) = a :: (mid ++ [b]) := by
  apply trimChars_eq_self_of
  · intro c hc
    simp only [List.head?] at hc
    cases hc; exact ha
  · intro c hc
    rw [show a :: (mid ++ [b]) = (a :: mid) ++ [b] by simp,
      List.getLast?_concat] at hc
    cases hc; exact hb

theorem jsonSerialize_trim (j : Json) :
    jsonSerialize j ≠ [] ∧ trimChars (jsonSerialize j) = jsonSerialize j := by
  cases j with
  | null =>
    constructor
    · simp [jsonSerialize, chars]
    · rw [show jsonSerialize .null = chars "null" by simp [jsonSerialize]]
      decide
  | bool b =>
    cases b
    · constructor
      · simp [jsonSerialize, chars]
      · rw [show jsonSerialize (.bool false) = chars "false" by simp [jsonSerialize]]
        decide
    · constructor
      · simp [jsonSerialize, chars]
      · rw [show jsonSerialize (.bool true) = chars "true" by simp [jsonSerialize]]
        decide
  | num n =>
    rw [show jsonSerialize (.num n) = intChars n by simp [jsonSerialize]]
    exact ⟨(trim_intChars n).1, (trim_intChars n).2⟩
  | str s =>
    rw [show jsonSerialize (.str s) = '"' :: (escChars s ++ ['"']) by simp [jsonSerialize]]
    exact ⟨by simp, trim_wrap (by decide) (by decide) _⟩
  | arr es =>
    rw [show jsonSerialize (.arr es) = '[' :: (jsonSerializeList es ++ [']']) by
      simp [jsonSerialize]]
    exact ⟨by simp, trim_wrap (by decide) (by decide) _⟩
  | obj ms =>
    rw [show jsonSerialize (.obj ms)
        = '\x7b' :: (jsonSerializeMembers ms ++ ['\x7d']) by simp [jsonSerialize]]
    exact ⟨by simp, trim_wrap (by decide) (by decide) _⟩

theorem trimOrNull_eq_some {s t : List Char} (h : trimOrNull s = some t) :
    t ≠ [] ∧ trimChars t = t := by
  simp only [trimOrNull] at h
  split at h
  · cases h
  · next hne =>
    cases h
    exact ⟨hne, trimChars_trimChars s⟩

theorem coerceObj_some {ms : List (List Char × Json)} {whole : Json} {t : List Char}
    (h : coerceObj ms whole = some t) : t ≠ [] ∧ trimChars t = t := by
  unfold coerceObj at h
  split at h
  · exact trimOrNull_eq_some h
  · split at h
    · exact trimOrNull_eq_some h
    · cases h
      exact ⟨(jsonSerialize_trim whole).1, (jsonSerialize_trim whole).2⟩

/-- C6: `coerceToString` is a total function on JSON-serializable values
(it is a Lean `def`, hence never raises), and whenever it returns a
string, that string is non-empty and trimmed — never an empty string, and
by its result type never an object or array. -/
theorem coerceToString_total (j : Json) (s : List Char)
    (h : coerceToString j = some s) : s ≠ [] ∧ trimChars s = s := by
  cases j with
  | null => simp [coerceToString] at h
  | bool b => simp [coerceToString] at h
  | str t => exact trimOrNull_eq_some h
  | num n =>
    simp only [coerceToString, Option.some.injEq] at h
    subst h
    exact ⟨(trim_intChars n).1, (trim_intChars n).2⟩
  | obj ms => exact coerceObj_some h
  | arr es =>
    cases es with
    | nil => simp [coerceToString] at h
    | cons first rest =>
      cases first with
      | obj ms => exact coerceObj_some h
      | arr es₂ =>
        simp only [coerceToString] at h
        exact coerceObj_some h
      | str t => exact trimOrNull_eq_some h
      | num n =>
        simp only [coerceToString, Option.some.injEq] at h
        subst h
        exact ⟨(trim_intChars n).1, (trim_intChars n).2⟩
      | null => simp [coerceToString] at h
      | bool b => simp [coerceToString] at h

/-- Witness for C6 at a concrete input. -/
theorem coerceToString_total_witness :
    coerceToString (Json.str (chars " abc ")) = some (chars "abc") ∧
    (chars "abc" ≠ [] ∧ trimChars (chars "abc") = chars "abc") :=
  ⟨by decide, coerceToString_total (Json.str (chars " abc ")) (chars "abc") (by decide)⟩

/-- C7 counterexample: for an object whose `name` property is a string
that is empty after trimming and whose `value` property is a non-empty
string, `coerceToString` returns null — not the trimmed `value` property
as the claim states — because the `name` branch tests only that `name` is
a string, not that it is non-empty. -/
theorem coerce_whitespace_name_cex :
    coerceToString
        (Json.obj [(chars "name", .str [' ']), (chars "value", .str (chars "x"))]) = none ∧
    ¬ (coerceToString
        (Json.obj [(chars "name", .str [' ']), (chars "value", .str (chars "x"))])
          = some (chars "x")) := by
  constructor
  · decide
  · decide

/-- C7 (amended): for a plain object, or an array whose first element is
an object, a string-valued `name` property short-circuits: the result is
its trim-or-null and the `value` property is never consulted; the `value`
property is used only when `name` is absent or not a string. -/
theorem coerce_name_short_circuit (ms : List (List Char × Json)) (rest : List Json)
    (s : List Char) :
    (jsLookup ms (chars "name") = some (.str s) →
      coerceToString (.obj ms) = trimOrNull s ∧
      coerceToString (.arr (.obj ms :: rest)) = trimOrNull s) ∧
    ((∀ s₂, jsLookup ms (chars "name") ≠ some (.str s₂)) →
      jsLookup ms (chars "value") = some (.str s) →
      coerceToString (.obj ms) = trimOrNull s ∧
      coerceToString (.arr (.obj ms :: rest)) = trimOrNull s) := by
  constructor
  · intro hname
    have hgen : ∀ w : Json, coerceObj ms w = trimOrNull s := by
      intro w
      unfold coerceObj
      rw [hname]
    exact ⟨hgen _, hgen _⟩
  · intro hname hvalue
    have hgen : ∀ w : Json, coerceObj ms w = trimOrNull s := by
      intro w
      unfold coerceObj
      cases hn : jsLookup ms (chars "name") with
      | none => rw [hvalue]
      | some j =>
        cases j with
        | str u => exact absurd hn (hname u)
        | null => rw [hvalue]
        | num m => rw [hvalue]
        | bool b => rw [hvalue]
        | arr es => rw [hvalue]
        | obj ns => rw [hvalue]
    exact ⟨hgen _, hgen _⟩

/-- Witness for C7 (amended) at concrete inputs, one per hypothesis
group. -/
theorem coerce_name_short_circuit_witness :
    (coerceToString (.obj [(chars "name", .str (chars " N "))]) = trimOrNull (chars " N ") ∧
     coerceToString (.arr [.obj [(chars "name", .str (chars " N "))]]) = trimOrNull (chars " N ")) ∧
    (coerceToString (.obj [(chars "value", .str (chars "v"))]) = trimOrNull (chars "v") ∧
     coerceToString (.arr [.obj [(chars "value", .str (chars "v"))]]) = trimOrNull (chars "v")) :=
  ⟨(coerce_name_short_circuit [(chars "name", .str (chars " N "))] [] (chars " N ")).1
      rfl,
   (coerce_name_short_circuit [(chars "value", .str (chars "v"))] [] (chars "v")).2
      (fun _s₂ h => nomatch h) rfl⟩

/-! ### Key normalization (C8) -/

theorem upChars_upChars (s : List Char) : upChars (upChars s) = upChars s := by
  unfold upChars
  rw [List.map_map]
  apply List.map_congr_left
  intro c _
  simp [Function.comp, toUpper_toUpper]

theorem trimChars_upChars (s : List Char) :
    trimChars (upChars s) = upChars (trimChars s) :=
  trimChars_map ws_toUpper s

/-- C8 counterexample: `normalizeKey` is not idempotent — nested braces
are stripped one layer per call, so `normalizeKey "\x7b\x7b\x7b\x7bx\x7d\x7d\x7d\x7d"
= "\x7b\x7bX\x7d\x7d"` while a second application yields `"X"`. -/
theorem normalizeKey_idempotence_cex :
    ¬ (normalizeKey (normalizeKey (chars "\x7b\x7b\x7b\x7bx\x7d\x7d\x7d\x7d"))
        = normalizeKey (chars "\x7b\x7b\x7b\x7bx\x7d\x7d\x7d\x7d")) := by
  decide

/-- C8 (amended): the concrete examples hold, and `normalizeKey` is
idempotent on every key whose normalization does not itself still start
with `\x7b\x7b` or end with `\x7d\x7d` (nested-brace keys re-strip). -/
theorem normalizeKey_idempotent_modulo_braces :
    (normalizeKey (chars "\x7b\x7bContent\x7d\x7d") = chars "CONTENT" ∧
     normalizeKey (chars "content") = chars "CONTENT") ∧
    (∀ k : List Char,
      hasPre (chars "\x7b\x7b") (normalizeKey k) = false →
      hasSuf (chars "\x7d\x7d") (normalizeKey k) = false →
      normalizeKey (normalizeKey k) = normalizeKey k) := by
  refine ⟨⟨by decide, by decide⟩, ?_⟩
  intro k hpre hsuf
  have h1 : trimChars (normalizeKey k) = normalizeKey k := by
    unfold normalizeKey
    rw [trimChars_upChars, trimChars_trimChars]
  have h2 : upChars (normalizeKey k) = normalizeKey k := by
    unfold normalizeKey
    rw [upChars_upChars]
  have hdp : dropPre (chars "\x7b\x7b") (normalizeKey k) = normalizeKey k := by
    unfold dropPre
    rw [hpre]
    simp
  have hds : dropSuf (chars "\x7d\x7d") (normalizeKey k) = normalizeKey k := by
    have hsuf₂ : hasPre (chars "\x7d\x7d").reverse (normalizeKey k).reverse = false := hsuf
    unfold dropSuf dropPre
    rw [hsuf₂]
    simp
  conv_lhs => rw [normalizeKey]
  rw [h1, hdp, hds, h1, h2]

/-- Witness for C8 (amended) at a concrete input. -/
theorem normalizeKey_idempotent_witness :
    normalizeKey (normalizeKey (chars "content")) = normalizeKey (chars "content") :=
  normalizeKey_idempotent_modulo_braces.2 (chars "content") (by decide) (by decide)

/-! ### Domain normalization (C9) -/

theorem mem_of_hasPre {p l : List Char} (h : hasPre p l = true) :
    ∀ c ∈ p, c ∈ l := by
  unfold hasPre at h
  rw [decide_eq_true_eq] at h
  intro c hc
  rw [← h] at hc
  exact List.mem_of_mem_take hc

theorem mem_dropPre {p l : List Char} {c : Char} (h : c ∈ dropPre p l) : c ∈ l := by
  unfold dropPre at h
  split at h
  · exact List.mem_of_mem_drop h
  · exact h

/-- C9 counterexample: `normalizeDomain` is not idempotent — `www.` is
stripped one occurrence per call, so `normalizeDomain "www.www.a" =
"www.a"` while a second application yields `"a"`. -/
theorem normalizeDomain_idempotence_cex :
    ¬ (normalizeDomain (normalizeDomain (chars "www.www.a"))
        = normalizeDomain (chars "www.www.a")) := by
  decide

/-- C9 (amended): `normalizeDomain` is idempotent on every input whose
normalized form is trimmed and does not itself start with `www.`
(truncation can expose surrounding whitespace, and a remaining `www.`
is re-stripped). -/
theorem mem_stripProto {l : List Char} {c : Char} (h : c ∈ stripProto l) : c ∈ l := by
  unfold stripProto at h
  split at h
  · exact List.mem_of_mem_drop h
  · split at h
    · exact List.mem_of_mem_drop h
    · exact h

theorem normalizeDomain_idempotent_when_normal (s : List Char)
    (htrim : trimChars (normalizeDomain s) = normalizeDomain s)
    (hwww : hasPre (chars "www.") (normalizeDomain s) = false) :
    normalizeDomain (normalizeDomain s) = normalizeDomain s := by
  by_cases hd0 : normalizeDomain s = []
  · rw [hd0]
    rfl
  · by_cases hs0 : s = []
    · exact absurd (by rw [hs0]; rfl) hd0
    · have hmem : ∀ c ∈ normalizeDomain s,
          c ∈ downChars (trimChars s) ∧ c ≠ '/' ∧ c ≠ '?' := by
        intro c hc
        rw [normalizeDomain, if_neg hs0] at hc
        have hc4 := mem_dropPre hc
        have hq2 := List.mem_takeWhile_imp hc4
        have hc3 := (List.takeWhile_sublist _).mem hc4
        have hq1 := List.mem_takeWhile_imp hc3
        have hc2 := (List.takeWhile_sublist _).mem hc3
        exact ⟨mem_stripProto hc2, by simpa using hq1, by simpa using hq2⟩
      have hlower : ∀ c ∈ normalizeDomain s, Char.toLower c = c := by
        intro c hc
        obtain ⟨hdown, -, -⟩ := hmem c hc
        unfold downChars at hdown
        obtain ⟨a, -, ha⟩ := List.mem_map.mp hdown
        rw [← ha, toLower_toLower]
      have hslash : ∀ c ∈ normalizeDomain s, c ≠ '/' := fun c hc => (hmem c hc).2.1
      have hquery : ∀ c ∈ normalizeDomain s, c ≠ '?' := fun c hc => (hmem c hc).2.2
      have hp1 : hasPre (chars "https://") (normalizeDomain s) = false := by
        by_contra hp
        rw [Bool.not_eq_false] at hp
        exact hslash '/' (mem_of_hasPre hp '/' (by decide)) rfl
      have hp2 : hasPre (chars "http://") (normalizeDomain s) = false := by
        by_contra hp
        rw [Bool.not_eq_false] at hp
        exact hslash '/' (mem_of_hasPre hp '/' (by decide)) rfl
      have hdown : downChars (normalizeDomain s) = normalizeDomain s :=
        map_eq_self_of_fixed hlower
      have hstrip : stripProto (normalizeDomain s) = normalizeDomain s := by
        unfold stripProto
        rw [hp1, hp2]
        simp
      have ht1 : (normalizeDomain s).takeWhile (fun c => c ≠ '/') = normalizeDomain s :=
        List.takeWhile_eq_self_iff.mpr (by
          intro c hc
          simpa using hslash c hc)
      have ht2 : (normalizeDomain s).takeWhile (fun c => c ≠ '?') = normalizeDomain s :=
        List.takeWhile_eq_self_iff.mpr (by
          intro c hc
          simpa using hquery c hc)
      conv_lhs => rw [normalizeDomain]
      rw [if_neg hd0, htrim, hdown, hstrip, ht1, ht2]
      unfold dropPre
      rw [hwww]
      simp

/-- Witness for C9 (amended) at a concrete input. -/
theorem normalizeDomain_idempotent_witness :
    normalizeDomain (normalizeDomain (chars "example.com"))
      = normalizeDomain (chars "example.com") :=
  normalizeDomain_idempotent_when_normal (chars "example.com") (by decide) (by decide)

/-! ### Identity resolver get-or-create (C2) -/

/-- C2: starting from any store with no record matching the identity value
on either identity field, two strictly sequential calls (the second
observing the first's write) return the same record id, with
`created=true, matchedBy=null` then `created=false, matchedBy=primary`:
creation sets both identity fields to the normalized value, so the second
call's primary-field probe finds the record the first call created. -/
theorem getOrCreateCompany_convergence (st : CompanyStore) (v : List Char)
    (hint : Option (List Char))
    (hnd : normalizeDomain v ≠ [])
    (hmiss : ∀ c ∈ st.companies,
      c.normalizedDomainText ≠ normalizeDomain v ∧ c.domain ≠ normalizeDomain v) :
    ∃ (r₁ r₂ : CompanyResult) (st₁ st₂ : CompanyStore),
      getOrCreateCompany st v hint = .ok (r₁, st₁) ∧
      getOrCreateCompany st₁ v hint = .ok (r₂, st₂) ∧
      r₁.created = true ∧ r₁.matchedBy = none ∧
      r₂.created = false ∧ r₂.matchedBy = some .primary ∧
      r₂.recordId = r₁.recordId ∧ st₂ = st₁ := by
  have hfind1 : findCompanyByNormalized st (normalizeDomain v) = none := by
    unfold findCompanyByNormalized
    rw [List.find?_eq_none]
    intro c hc
    simpa using (hmiss c hc).1
  have hfind2 : findCompanyByDomain st (normalizeDomain v) = none := by
    unfold findCompanyByDomain
    rw [List.find?_eq_none]
    intro c hc
    simpa using (hmiss c hc).2
  have hname : ∀ dn : List Char,
      findCompanyByNormalized
        ⟨st.companies ++ [⟨st.nextId, dn, normalizeDomain v, normalizeDomain v⟩],
          st.nextId + 1⟩ (normalizeDomain v)
        = some ⟨st.nextId, dn, normalizeDomain v, normalizeDomain v⟩ := by
    intro dn
    unfold findCompanyByNormalized at hfind1 ⊢
    simp only [List.find?_append, hfind1, Option.none_or]
    simp [List.find?]
  have h₁ : getOrCreateCompany st v hint
      = .ok (⟨st.nextId, true, none⟩,
          ⟨st.companies
            ++ [⟨st.nextId, displayNameOf hint (normalizeDomain v),
                  normalizeDomain v, normalizeDomain v⟩], st.nextId + 1⟩) := by
    simp only [getOrCreateCompany, if_neg hnd, hfind1, hfind2]
  have h₂ : getOrCreateCompany
      ⟨st.companies
        ++ [⟨st.nextId, displayNameOf hint (normalizeDomain v),
              normalizeDomain v, normalizeDomain v⟩], st.nextId + 1⟩ v hint
      = .ok (⟨st.nextId, false, some .primary⟩,
          ⟨st.companies
            ++ [⟨st.nextId, displayNameOf hint (normalizeDomain v),
                  normalizeDomain v, normalizeDomain v⟩], st.nextId + 1⟩) := by
    simp only [getOrCreateCompany, if_neg hnd, hname]
  exact ⟨_, _, _, _, h₁, h₂, rfl, rfl, rfl, rfl, rfl, rfl⟩

/-- Witness for C2 at a concrete input (empty store). -/
theorem getOrCreateCompany_convergence_witness :
    ∃ (r₁ r₂ : CompanyResult) (st₁ st₂ : CompanyStore),
      getOrCreateCompany ⟨[], 0⟩ (chars "example.com") (some (chars "Acme")) = .ok (r₁, st₁) ∧
      getOrCreateCompany st₁ (chars "example.com") (some (chars "Acme")) = .ok (r₂, st₂) ∧
      r₁.created = true ∧ r₁.matchedBy = none ∧
      r₂.created = false ∧ r₂.matchedBy = some .primary ∧
      r₂.recordId = r₁.recordId ∧ st₂ = st₁ :=
  getOrCreateCompany_convergence ⟨[], 0⟩ (chars "example.com") (some (chars "Acme"))
    (by decide) (by intro c hc; cases hc)

/-! ### Inbox-email duplicate guard (C3, C4) -/

/-- C3: three strictly sequential ingestions with the same trace key,
starting from any store with no record carrying that key and with fresh
ids, create exactly one record; all three calls return its id, with
`wasDuplicate=false,true,true`; each duplicate hit concatenates a new line
onto the existing audit log (never replacing it) and creates nothing. -/
theorem inbox_dedup_convergence (st : InboxStore) (msgId l₁ e₂ e₃ : List Char)
    (hfresh : ∀ it ∈ st.items, it.gmailMessageId ≠ msgId)
    (hids : ∀ it ∈ st.items, it.id < st.nextId)
    (hl₁ : l₁ ≠ []) :
    ∃ st₁ st₂ st₃ : InboxStore,
      ingestInboxEmail st msgId l₁ e₂ false = (⟨true, false, some st.nextId⟩, st₁) ∧
      ingestInboxEmail st₁ msgId l₁ e₂ false = (⟨true, true, some st.nextId⟩, st₂) ∧
      ingestInboxEmail st₂ msgId l₁ e₃ false = (⟨true, true, some st.nextId⟩, st₃) ∧
      st₃.items.countP (fun it => it.gmailMessageId = msgId) = 1 ∧
      itemLogById st₂ st.nextId = some (l₁ ++ '\n' :: e₂) ∧
      itemLogById st₃ st.nextId = some ((l₁ ++ '\n' :: e₂) ++ '\n' :: e₃) := by
  have hfind0 : findDuplicateInboxItem st msgId = none := by
    unfold findDuplicateInboxItem
    rw [List.find?_eq_none]
    intro it hit
    simpa using hfresh it hit
  have hfindL : ∀ L : List Char,
      findDuplicateInboxItem ⟨st.items ++ [⟨st.nextId, msgId, L⟩], st.nextId + 1⟩ msgId
        = some ⟨st.nextId, msgId, L⟩ := by
    intro L
    unfold findDuplicateInboxItem at hfind0 ⊢
    simp only [List.find?_append, hfind0, Option.none_or]
    simp [List.find?]
  have hmapfix : ∀ L : List Char,
      st.items.map (fun it =>
        if it.id = st.nextId then { it with activityLog := L } else it) = st.items := by
    intro L
    apply map_eq_self_of_fixed
    intro it hit
    rw [if_neg (Nat.ne_of_lt (hids it hit))]
  have hupd : ∀ L L₂ : List Char,
      updateActivityLog ⟨st.items ++ [⟨st.nextId, msgId, L⟩], st.nextId + 1⟩ st.nextId L₂
        = ⟨st.items ++ [⟨st.nextId, msgId, L₂⟩], st.nextId + 1⟩ := by
    intro L L₂
    unfold updateActivityLog
    simp only [List.map_append, hmapfix]
    simp
  have h₁ : ingestInboxEmail st msgId l₁ e₂ false
      = (⟨true, false, some st.nextId⟩,
          ⟨st.items ++ [⟨st.nextId, msgId, l₁⟩], st.nextId + 1⟩) := by
    unfold ingestInboxEmail
    rw [hfind0]
  have happ₂ : appendedLog l₁ e₂ = l₁ ++ '\n' :: e₂ := by
    unfold appendedLog
    rw [if_neg hl₁]
  have hl₂ : l₁ ++ '\n' :: e₂ ≠ [] := by simp [hl₁]
  have happ₃ : appendedLog (l₁ ++ '\n' :: e₂) e₃ = (l₁ ++ '\n' :: e₂) ++ '\n' :: e₃ := by
    unfold appendedLog
    rw [if_neg hl₂]
  have h₂ : ingestInboxEmail ⟨st.items ++ [⟨st.nextId, msgId, l₁⟩], st.nextId + 1⟩
        msgId l₁ e₂ false
      = (⟨true, true, some st.nextId⟩,
          ⟨st.items ++ [⟨st.nextId, msgId, l₁ ++ '\n' :: e₂⟩], st.nextId + 1⟩) := by
    unfold ingestInboxEmail
    rw [hfindL l₁]
    simp only [Bool.false_eq_true, if_false, happ₂, hupd]
  have h₃ : ingestInboxEmail
        ⟨st.items ++ [⟨st.nextId, msgId, l₁ ++ '\n' :: e₂⟩], st.nextId + 1⟩
        msgId l₁ e₃ false
      = (⟨true, true, some st.nextId⟩,
          ⟨st.items ++ [⟨st.nextId, msgId, (l₁ ++ '\n' :: e₂) ++ '\n' :: e₃⟩],
            st.nextId + 1⟩) := by
    unfold ingestInboxEmail
    rw [hfindL (l₁ ++ '\n' :: e₂)]
    simp only [Bool.false_eq_true, if_false, happ₃, hupd]
  have hlog : ∀ L : List Char,
      itemLogById ⟨st.items ++ [⟨st.nextId, msgId, L⟩], st.nextId + 1⟩ st.nextId = some L := by
    intro L
    unfold itemLogById
    have hno : List.find? (fun it => it.id = st.nextId) st.items = none := by
      rw [List.find?_eq_none]
      intro it hit
      simpa using Nat.ne_of_lt (hids it hit)
    simp only [List.find?_append, hno, Option.none_or]
    simp [List.find?]
  have hz : st.items.countP (fun it => it.gmailMessageId = msgId) = 0 := by
    rw [List.countP_eq_zero]
    intro it hit
    simpa using hfresh it hit
  have hcount : (st.items
        ++ [(⟨st.nextId, msgId, (l₁ ++ '\n' :: e₂) ++ '\n' :: e₃⟩ : InboxItem)]).countP
      (fun it => it.gmailMessageId = msgId) = 1 := by
    rw [List.countP_append, hz]
    simp [List.countP, List.countP.go]
  exact ⟨_, _, _, h₁, h₂, h₃, hcount, hlog _, hlog _⟩

/-- Witness for C3 at a concrete input (empty store). -/
theorem inbox_dedup_convergence_witness :
    ∃ st₁ st₂ st₃ : InboxStore,
      ingestInboxEmail ⟨[], 0⟩ (chars "msg-123") (chars "a") (chars "b") false
        = (⟨true, false, some 0⟩, st₁) ∧
      ingestInboxEmail st₁ (chars "msg-123") (chars "a") (chars "b") false
        = (⟨true, true, some 0⟩, st₂) ∧
      ingestInboxEmail st₂ (chars "msg-123") (chars "a") (chars "c") false
        = (⟨true, true, some 0⟩, st₃) ∧
      st₃.items.countP (fun it => it.gmailMessageId = chars "msg-123") = 1 ∧
      itemLogById st₂ 0 = some (chars "a" ++ '\n' :: chars "b") ∧
      itemLogById st₃ 0 = some ((chars "a" ++ '\n' :: chars "b") ++ '\n' :: chars "c") :=
  inbox_dedup_convergence ⟨[], 0⟩ (chars "msg-123") (chars "a") (chars "b") (chars "c")
    (by intro it hit; cases hit) (by intro it hit; cases hit) (by decide)

/-- C4 counterexample: when the duplicate guard finds an existing record
but the audit-log append fails, the call returns the error response
(`ok=false`, no record id) — not the claimed success with the existing
id and `wasDuplicate=true`: the route awaits the append inside its `try`
block, so the thrown error reaches the catch-all error response. -/
theorem append_failure_cex :
    (ingestInboxEmail ⟨[⟨0, chars "msg-123", chars "log"⟩], 1⟩ (chars "msg-123")
        (chars "init") (chars "dup") true).1 = ⟨false, false, none⟩ ∧
    ¬ ((ingestInboxEmail ⟨[⟨0, chars "msg-123", chars "log"⟩], 1⟩ (chars "msg-123")
        (chars "init") (chars "dup") true).1 = ⟨true, true, some 0⟩) := by
  constructor
  · decide
  · decide

/-- C4 (amended): a failure of the audit-log append fails the enclosing
call — on a duplicate hit with a failing update, the route returns an
error response and the store is left unchanged (no new record, no
update). -/
theorem append_failure_returns_error (st : InboxStore) (msgId l e : List Char)
    (it : InboxItem) (hdup : findDuplicateInboxItem st msgId = some it) :
    ingestInboxEmail st msgId l e true = (⟨false, false, none⟩, st) := by
  unfold ingestInboxEmail
  rw [hdup]
  simp

/-- Witness for C4 (amended) at a concrete input. -/
theorem append_failure_returns_error_witness :
    ingestInboxEmail ⟨[⟨0, chars "m", chars "g"⟩], 1⟩ (chars "m") (chars "i")
        (chars "d") true
      = (⟨false, false, none⟩, ⟨[⟨0, chars "m", chars "g"⟩], 1⟩) :=
  append_failure_returns_error ⟨[⟨0, chars "m", chars "g"⟩], 1⟩ (chars "m")
    (chars "i") (chars "d") ⟨0, chars "m", chars "g"⟩ (by decide)

/-! ### Merge-map priority (C5) -/

theorem find?_fst_map_overwrite {m : List (List Char × List Char)} {k nk v : List Char}
    (hne : k ≠ nk) :
    (m.map (fun p => if p.1 = nk then (nk, v) else p)).find? (fun p => p.1 = k)
      = m.find? (fun p => p.1 = k) := by
  induction m with
  | nil => rfl
  | cons q rest ih =>
    by_cases hq : q.1 = nk
    · rw [List.map_cons, if_pos hq, List.find?_cons, List.find?_cons]
      have hqk : ¬ q.1 = k := by
        intro he
        exact hne (by rw [← he, hq])
      simp only [decide_eq_true_eq]
      rw [decide_eq_false (Ne.symm hne), decide_eq_false hqk]
      exact ih
    · rw [List.map_cons, if_neg hq, List.find?_cons, List.find?_cons]
      by_cases hqk : q.1 = k
      · rw [decide_eq_true hqk]
      · rw [decide_eq_false hqk]
        exact ih

theorem getKey_setKey_of_ne {m : List (List Char × List Char)} {k nk v : List Char}
    (hne : k ≠ nk) : getKey (setKey m nk v) k = getKey m k := by
  unfold setKey getKey
  split
  · rw [find?_fst_map_overwrite hne]
  · rw [List.find?_append]
    have hsingle : List.find? (fun p => p.1 = k) [(nk, v)] = none := by
      simp [Ne.symm hne]
    rw [hsingle]
    simp

theorem getKey_putMergeEntries {m : List (List Char × List Char)}
    {entries : List (List Char × Json)} {k v : List Char}
    (h : getKey m k = some v) : getKey (putMergeEntries m entries) k = some v := by
  induction entries generalizing m with
  | nil => exact h
  | cons kv rest ih =>
    unfold putMergeEntries
    rw [List.foldl_cons]
    apply ih
    cases hc : coerceToString kv.2 with
    | none => simpa [hc] using h
    | some s =>
      by_cases h1 : normalizeKey kv.1 = []
      · simpa [hc, h1] using h
      · by_cases h2 : (getKey m (normalizeKey kv.1)).isSome = true
        · simpa [hc, h1, h2] using h
        · have hne : k ≠ normalizeKey kv.1 := by
            intro he
            apply h2
            rw [← he, h]
            rfl
          simp only [hc, if_neg h1, if_neg h2]
          rw [getKey_setKey_of_ne hne]
          exact h

/-- C5: the concrete merge example from the spec holds, and in general a
key written by the step-1 placeholder loop is authoritative — its value
survives the step-2 field loop unchanged, whatever the field object
supplies for the same normalized key (conflicting step-2 values are
discarded; step-2 only fills absent keys). -/
theorem normalizeMerge_priority :
    (normalizeMerge
        { placeholders := some [(chars "\x7b\x7bPROJECT\x7d\x7d", .str (chars "A"))],
          fields := some [(chars "PROJECT", .str (chars "B")),
                          (chars "CLIENT", .str (chars "C"))] }
      = [(chars "PROJECT", chars "A"), (chars "CLIENT", chars "C")]) ∧
    (∀ (b : RawBody) (k v : List Char),
      getKey (phase1 b) k = some v → getKey (normalizeMerge b) k = some v) := by
  constructor
  · decide
  · intro b k v h
    unfold normalizeMerge
    cases halias : (b.mergeFields.or (b.mergefieldsLower.or (b.fields.or (b.replacements.or
        (b.structuredInputs.or b.structuredinputsLower))))) with
    | none => exact h
    | some entries => exact getKey_putMergeEntries h

/-- Witness for C5 at a concrete input. -/
theorem normalizeMerge_priority_witness :
    getKey (normalizeMerge
        { placeholders := some [(chars "\x7b\x7bK\x7d\x7d", .str (chars "A"))],
          fields := some [(chars "K", .str (chars "B"))] }) (chars "K")
      = some (chars "A") :=
  normalizeMerge_priority.2
    { placeholders := some [(chars "\x7b\x7bK\x7d\x7d", .str (chars "A"))],
      fields := some [(chars "K", .str (chars "B"))] }
    (chars "K") (chars "A") (by decide)

/-! ### Promotion workflow (C1) -/

/-- C1: the source delete is issued only when every declared batch
returned exactly the requested count and the total number of created
children is positive, and it is then the final operation of the trace;
and in the decisions-mismatch-after-tasks scenario the source is never
deleted and the response reports `ok=false` with the created task ids
listed. -/
theorem promote_delete_last_and_no_partial_delete (env : PromoteEnv) (nT nD : Nat) :
    (PromoteOp.deleteSource ∈ (promoteInboxItem env nT nD).2 →
      ((promoteInboxItem env nT nD).2.getLast? = some PromoteOp.deleteSource ∧
       (promoteInboxItem env nT nD).1.createdTasks.length = nT ∧
       (promoteInboxItem env nT nD).1.createdDecisions.length = nD ∧
       0 < nT + nD)) ∧
    (∀ tids dids : List Nat,
      env.getOutcome = .found →
      env.taskOutcome = .ids tids → tids.length = nT → 0 < nT →
      env.decisionOutcome = .ids dids → dids.length ≠ nD → 0 < nD →
      (PromoteOp.deleteSource ∉ (promoteInboxItem env nT nD).2 ∧
       (promoteInboxItem env nT nD).1.ok = false ∧
       (promoteInboxItem env nT nD).1.createdTasks = tids ∧
       (promoteInboxItem env nT nD).1.inboxDeleted = false)) := by
  obtain ⟨g, t, d, del⟩ := env
  constructor
  · intro hmem
    cases g with
    | throws => simp [promoteInboxItem] at hmem
    | notFound => simp [promoteInboxItem] at hmem
    | found =>
      have hchild : ∀ (tids dids : List Nat) (tr : List PromoteOp),
          PromoteOp.deleteSource ∉ tr →
          PromoteOp.deleteSource
            ∈ (promoteAfterChildren ⟨.found, t, d, del⟩ tids dids tr).2 →
          ((promoteAfterChildren ⟨.found, t, d, del⟩ tids dids tr).2.getLast?
              = some PromoteOp.deleteSource ∧
           (promoteAfterChildren ⟨.found, t, d, del⟩ tids dids tr).1.createdTasks = tids ∧
           (promoteAfterChildren ⟨.found, t, d, del⟩ tids dids tr).1.createdDecisions = dids ∧
           0 < tids.length + dids.length) := by
        intro tids dids tr htr hm
        unfold promoteAfterChildren at hm ⊢
        by_cases hz : tids.length + dids.length = 0
        · rw [if_pos hz] at hm
          exact absurd hm htr
        · rw [if_neg hz] at hm ⊢
          cases del <;> dsimp only at hm ⊢ <;>
            exact ⟨List.getLast?_concat _, rfl, rfl, by omega⟩
      have main : ∀ (tids : List Nat) (tr : List PromoteOp),
          tids.length = nT →
          PromoteOp.deleteSource ∉ tr →
          PromoteOp.deleteSource
            ∈ (promoteAfterTasks ⟨.found, t, d, del⟩ tids nD tr).2 →
          ((promoteAfterTasks ⟨.found, t, d, del⟩ tids nD tr).2.getLast?
              = some PromoteOp.deleteSource ∧
           (promoteAfterTasks ⟨.found, t, d, del⟩ tids nD tr).1.createdTasks.length = nT ∧
           (promoteAfterTasks ⟨.found, t, d, del⟩ tids nD tr).1.createdDecisions.length = nD ∧
           0 < nT + nD) := by
        intro tids tr htl htr hm
        unfold promoteAfterTasks at hm ⊢
        by_cases hD : nD > 0
        · rw [if_pos hD] at hm ⊢
          cases d with
          | throws =>
            dsimp only at hm
            rw [List.mem_append] at hm
            rcases hm with hm | hm
            · exact absurd hm htr
            · simp at hm
          | ids dids =>
            dsimp only at hm ⊢
            by_cases hdl : dids.length ≠ nD
            · rw [if_pos hdl] at hm
              dsimp only at hm
              rw [List.mem_append] at hm
              rcases hm with hm | hm
              · exact absurd hm htr
              · simp at hm
            · rw [if_neg hdl] at hm ⊢
              push_neg at hdl
              have hc := hchild tids dids (tr ++ [.createDecisions])
                (by
                  rw [List.mem_append]
                  rintro (hx | hx)
                  · exact htr hx
                  · simp at hx) hm
              refine ⟨hc.1, ?_, ?_, ?_⟩
              · rw [hc.2.1, htl]
              · rw [hc.2.2.1, hdl]
              · have := hc.2.2.2
                omega
        · rw [if_neg hD] at hm ⊢
          have hc := hchild tids [] tr htr hm
          refine ⟨hc.1, ?_, ?_, ?_⟩
          · rw [hc.2.1, htl]
          · rw [hc.2.2.1]
            simp
            omega
          · have := hc.2.2.2
            simp at this
            omega
      by_cases hT : nT > 0
      · cases t with
        | throws => simp [promoteInboxItem, hT] at hmem
        | ids tids =>
          by_cases htl : tids.length ≠ nT
          · simp [promoteInboxItem, hT, htl] at hmem
          · push_neg at htl
            have hred : promoteInboxItem ⟨.found, .ids tids, d, del⟩ nT nD
                = promoteAfterTasks ⟨.found, .ids tids, d, del⟩ tids nD
                    [.fetchSource, .createTasks] := by
              simp [promoteInboxItem, hT, htl]
            rw [hred] at hmem ⊢
            exact main tids [.fetchSource, .createTasks] htl (by simp) hmem
      · have hred : promoteInboxItem ⟨.found, t, d, del⟩ nT nD
            = promoteAfterTasks ⟨.found, t, d, del⟩ [] nD [.fetchSource] := by
          simp [promoteInboxItem, hT]
        rw [hred] at hmem ⊢
        exact main [] [.fetchSource] (by simp; omega) (by simp) hmem
  · intro tids dids hg ht htl hT hd hdl hD
    subst hg
    subst ht
    subst hd
    have hne : ¬ tids.length ≠ nT := by simpa using htl
    simp [promoteInboxItem, promoteAfterTasks, hT, hD, hne, htl, hdl]

/-- Witness for C1: a fully successful run (delete present, last, exact
counts) and a decisions-mismatch run (no delete, `ok=false`, task ids
listed), both at concrete environments. -/
theorem promote_delete_last_witness :
    ((promoteInboxItem ⟨.found, .ids [7], .ids [8], true⟩ 1 1).2.getLast?
        = some PromoteOp.deleteSource ∧
     (promoteInboxItem ⟨.found, .ids [7], .ids [8], true⟩ 1 1).1.createdTasks.length = 1 ∧
     (promoteInboxItem ⟨.found, .ids [7], .ids [8], true⟩ 1 1).1.createdDecisions.length = 1 ∧
     0 < 1 + 1) ∧
    (PromoteOp.deleteSource ∉ (promoteInboxItem ⟨.found, .ids [7], .ids [], true⟩ 1 1).2 ∧
     (promoteInboxItem ⟨.found, .ids [7], .ids [], true⟩ 1 1).1.ok = false ∧
     (promoteInboxItem ⟨.found, .ids [7], .ids [], true⟩ 1 1).1.createdTasks = [7] ∧
     (promoteInboxItem ⟨.found, .ids [7], .ids [], true⟩ 1 1).1.inboxDeleted = false) :=
  ⟨(promote_delete_last_and_no_partial_delete ⟨.found, .ids [7], .ids [8], true⟩ 1 1).1
      (by decide),
   (promote_delete_last_and_no_partial_delete ⟨.found, .ids [7], .ids [], true⟩ 1 1).2
      [7] [] rfl rfl rfl (by decide) rfl (by decide) (by decide)⟩

/-! ### Retry/backoff wrapper (C10) -/

/-- C10: any non-rate-limit response is returned immediately with no
sleep; three consecutive 429 responses starting at attempt 1 produce
exactly two sleeps (1000 ms then 2000 ms) and the attempt-3 response is
returned with no fourth attempt. -/
theorem fetchWithRetry_backoff (statuses : Nat → Nat) :
    (∀ a, statuses a ≠ 429 → fetchWithRetry statuses a = (a, [])) ∧
    (statuses 1 = 429 → statuses 2 = 429 → statuses 3 = 429 →
      fetchWithRetry statuses 1 = (3, [1000, 2000])) := by
  constructor
  · intro a ha
    rw [fetchWithRetry, dif_neg (by simp [ha])]
  · intro h1 h2 h3
    have hc3 : fetchWithRetry statuses 3 = (3, []) := by
      rw [fetchWithRetry, dif_neg (by simp [maxRetries])]
    have hc2 : fetchWithRetry statuses 2 = (3, [2000]) := by
      rw [fetchWithRetry, dif_pos ⟨h2, by decide⟩]
      rw [show (2 : Nat) + 1 = 3 from rfl, hc3]
      norm_num
    rw [fetchWithRetry, dif_pos ⟨h1, by decide⟩]
    rw [show (1 : Nat) + 1 = 2 from rfl, hc2]
    norm_num

/-- Witness for C10 at concrete status streams. -/
theorem fetchWithRetry_backoff_witness :
    fetchWithRetry (fun _ => 200) 1 = (1, []) ∧
    fetchWithRetry (fun _ => 429) 1 = (3, [1000, 2000]) :=
  ⟨(fetchWithRetry_backoff (fun _ => 200)).1 1 (by decide),
   (fetchWithRetry_backoff (fun _ => 429)).2 rfl rfl rfl⟩

end PMIntake
